import Mathlib

/-!
Shallow embedding of `src/numpy_financial/_financial.py` and verification of
its natural-language specification.

Modelling conventions:
* Machine floating-point numbers are modelled by exact rationals `ℚ`; the
  claims settled here concern control flow, branch selection and algebraic
  identities, not floating-point rounding.
* The not-a-number sentinel returned by `ipmt`, `irr`, `mirr` and `rate` is
  modelled by `Option` with `none` standing for NaN (for `rate` the source
  returns `default_type(np.nan) + rn`, a NaN at every broadcast position, so a
  single `none` models the whole all-NaN array).
* A raised Python exception (`ValueError`, `KeyError`, `TypeError`) is
  modelled by `Except.error`.
* Exponents `nper`/`per` are taken in `ℤ` so that `(1 + rate) ^ nper` is the
  exact rational power; division is the total field division of `ℚ`
  (`x / 0 = 0`), except where the source deliberately relies on IEEE
  division by zero (`nper` at zero rate), which is modelled explicitly.
* Batched (broadcast) calls are modelled as lists of already-broadcast
  per-element argument tuples; broadcasting mechanics themselves are out of
  scope for the specification.
-/

namespace NumpyFinancial

/-! ### Timing normalizer: `_when_to_num` / `_convert_when` (lines 23-39) -/

/-- A scalar that can be looked up in the `_when_to_num` dictionary: a Python
string or an integer. -/
inductive WhenScalar where
  | str (s : String)
  | num (n : ℤ)
deriving DecidableEq

/-- The `_when_to_num` dictionary (lines 23-28): a successful lookup returns
the timing code, a missing key is `none` (Python `KeyError`). -/
def whenToNum : WhenScalar → Option ℕ
  | .str s =>
    if s = ("end") then some 0
    else if s = ("begin") then some 1
    else if s = ("e") then some 0
    else if s = ("b") then some 1
    else if s = ("beginning") then some 1
    else if s = ("start") then some 1
    else if s = ("finish") then some 0
    else none
  | .num n => if n = 0 then some 0 else if n = 1 then some 1 else none

/-- Argument shapes accepted by `_convert_when`: an `np.ndarray` (passed
through untouched), a scalar, or a Python sequence of scalars. -/
inductive WhenArg where
  | arr (vs : List ℚ)
  | scalar (x : WhenScalar)
  | seq (xs : List WhenScalar)

/-- Result of `_convert_when`: the untouched array, a single timing code, or
the list of codes produced by the comprehension on line 39. -/
inductive WhenConverted where
  | passthrough (vs : List ℚ)
  | code (n : ℕ)
  | codes (ns : List ℕ)
deriving DecidableEq

/-- The comprehension `[_when_to_num[x] for x in when]` (line 39): looks every
element up left to right, and the first missing key raises `KeyError`,
modelled by `Except.error` carrying the offending element. -/
def seqLookup : List WhenScalar → Except WhenScalar (List ℕ)
  | [] => .ok []
  | x :: xs =>
    match whenToNum x with
    | none => .error x
    | some n => (seqLookup xs).map (fun ns => n :: ns)

/-- `_convert_when` (lines 31-39).  An ndarray is returned unchanged; a scalar
is looked up in the dictionary; on a missed lookup the `except` clause
iterates the argument: a string is iterated character by character (each
single-character string is itself looked up), an integer is not iterable and
the `TypeError` escapes, and a list/tuple runs the per-element comprehension. -/
def convertWhen : WhenArg → Except WhenScalar WhenConverted
  | .arr vs => .ok (.passthrough vs)
  | .scalar x =>
    match whenToNum x with
    | some n => .ok (.code n)
    | none =>
      match x with
      | .str s => (seqLookup (s.toList.map (fun c => .str c.toString))).map .codes
      | .num m => .error (.num m)
  | .seq xs => (seqLookup xs).map .codes

/-! ### Closed-form functions: `fv` (lines 126-147), `pmt` (lines 235-242) -/

/-- Per-element argument tuple for a batched `fv` call, after broadcasting. -/
structure FvArgs where
  rate : ℚ
  nper : ℤ
  pmt : ℚ
  pv : ℚ
  whenv : ℚ
deriving DecidableEq

/-- Per-element semantics of `fv` (lines 129-141): the `rate == 0` mask gets
`-(pv + pmt*nper)`, the complement gets the annuity formula with
`temp = (1+rate)**nper` hoisted. -/
def fv (rate : ℚ) (nper : ℤ) (pmt pv whenv : ℚ) : ℚ :=
  if rate = 0 then -(pv + pmt * (nper : ℚ))
  else
    -pv * (1 + rate) ^ nper
      - pmt * (1 + rate * whenv) / rate * ((1 + rate) ^ nper - 1)

/-- Batched `fv`: the source recombines the two masked formulas into one array
of the broadcast shape; elementwise this is `fv` at each argument tuple. -/
def fvArr (args : List FvArgs) : List ℚ :=
  args.map (fun a => fv a.rate a.nper a.pmt a.pv a.whenv)

/-- `pmt` (lines 235-242): the masked-rate trick substitutes 1 for zero rates
purely to avoid division by zero, then `np.where` selects `nper` as the
annuity factor for zero rates and the closed-form factor otherwise. -/
def pmt (rate : ℚ) (nper : ℤ) (pv fv whenv : ℚ) : ℚ :=
  let temp := (1 + rate) ^ nper
  let masked_rate := if rate = 0 then 1 else rate
  let fact :=
    if rate = 0 then (nper : ℚ)
    else (1 + masked_rate * whenv) * (temp - 1) / masked_rate;
  -(fv + pv * temp) / fact

/-! ### Amortization split: `_rbl` (lines 442-449), `ipmt` (lines 415-439),
`ppmt` (lines 476-478) -/

/-- `_rbl` (line 449): the remaining balance on the loan, i.e. `fv` evaluated
at `per - 1` periods. -/
def _rbl (rate : ℚ) (per : ℤ) (pmt pv whenv : ℚ) : ℚ :=
  fv rate (per - 1) pmt pv whenv

/-- `ipmt` (lines 415-439).  The base interest is remaining balance times
rate; the three sequential mask assignments (`per < 1` to NaN,
`when == 1 and per == 1` to 0, `when == 1 and per > 1` divided by `1+rate`)
touch pairwise disjoint index sets, so they are an if-chain elementwise.
`none` models the NaN sentinel. -/
def ipmt (rate : ℚ) (per nper : ℤ) (pv fvArg whenv : ℚ) : Option ℚ :=
  let total_pmt := pmt rate nper pv fvArg whenv
  let base := _rbl rate per total_pmt pv whenv * rate
  if per < 1 then none
  else if whenv = 1 ∧ per = 1 then some 0
  else if whenv = 1 ∧ 1 < per then some (base / (1 + rate))
  else some base

/-- `ppmt` (lines 476-478): `pmt(...) - ipmt(...)`; subtracting NaN yields
NaN, i.e. `none` propagates. -/
def ppmt (rate : ℚ) (per nper : ℤ) (pv fvArg whenv : ℚ) : Option ℚ :=
  (ipmt rate per nper pv fvArg whenv).map
    (fun i => pmt rate nper pv fvArg whenv - i)

/-! ### `pv` (lines 570-574) -/

/-- `pv` (lines 570-574): the symmetric rearrangement, with the annuity factor
selected by `np.where` on the zero-rate mask. -/
def pv (rate : ℚ) (nper : ℤ) (pmt fvArg whenv : ℚ) : ℚ :=
  let temp := (1 + rate) ^ nper
  let fact :=
    if rate = 0 then (nper : ℚ)
    else (1 + rate * whenv) * (temp - 1) / rate;
  -(fvArg + pmt * fact) / temp

/-! ### The shared Newton-Raphson driver shape

Both iterative solvers (`rate`, lines 656-671, and `irr`, lines 749-757) are
the same fuel-bounded loop: compute the next candidate, stop and produce an
output the first time the closeness test between successive candidates
passes, and yield the NaN sentinel (`none`) when the iteration budget is
exhausted without the test ever passing. -/

/-- Fuel-bounded Newton-Raphson loop common to `rate` and `irr`. -/
def newtonLoop {α β : Type} (step : α → α) (close : α → α → Bool)
    (out : α → β) : ℕ → α → Option β
  | 0, _ => none
  | fuel + 1, x =>
    if close x (step x) then some (out (step x))
    else newtonLoop step close out fuel (step x)

/-! ### Rate solver: `_g_div_gp` (lines 582-592) and `rate` (lines 602-671) -/

/-- `_g_div_gp` (lines 582-592): the Newton quotient `g(r)/g'(r)` for the
annuity identity, exactly as written in the source (including the hoisted
`t1`, `t2`). -/
def _g_div_gp (r : ℚ) (n : ℤ) (p x y w : ℚ) : ℚ :=
  let t1 := (r + 1) ^ n
  let t2 := (r + 1) ^ (n - 1)
  let g := y + t1 * x + p * (t1 - 1) * (r * w + 1) / r
  let gp := (n : ℚ) * t2 * x
      - p * (t1 - 1) * (r * w + 1) / (r ^ 2)
      + (n : ℚ) * p * t2 * (r * w + 1) / r
      + p * (t1 - 1) * w / r;
  g / gp

/-- Per-element argument tuple of a batched `rate` call, after broadcasting:
`rate(nper, pmt, pv, fv, when)`. -/
structure RateArgs where
  nper : ℤ
  pmt : ℚ
  pv : ℚ
  fv : ℚ
  whenv : ℚ
deriving DecidableEq

/-- One Newton update of the whole candidate array (line 662):
`rnp1 = rn - _g_div_gp(rn, nper, pmt, pv, fv, when)` elementwise. -/
def rateStep (es : List RateArgs) (rs : List ℚ) : List ℚ :=
  List.zipWith (fun e r => r - _g_div_gp r e.nper e.pmt e.pv e.fv e.whenv) es rs

/-- The convergence test of `rate` (lines 663-664):
`close = np.all(abs(rnp1 - rn) < tol)` — every element must be within
tolerance simultaneously. -/
def rateClose (tol : ℚ) (rs rsNew : List ℚ) : Bool :=
  (List.zipWith (fun rNew r => decide (|rNew - r| < tol)) rsNew rs).all id

/-- The `k`-th candidate array of the batched solve, starting from the guess
broadcast over every element (line 658). -/
def rateIter (es : List RateArgs) (guess : ℚ) : ℕ → List ℚ
  | 0 => List.replicate es.length guess
  | k + 1 => rateStep es (rateIter es guess k)

/-- `rate` (lines 656-671): the Newton loop with explicit `guess`, `tol` and
`maxiter`; `none` models the all-NaN array `default_type(np.nan) + rn`
returned on non-convergence (line 669), `some` the converged candidate
(line 671). -/
def rate (es : List RateArgs) (guess tol : ℚ) (maxiter : ℕ) : Option (List ℚ) :=
  newtonLoop (rateStep es) (rateClose tol) id maxiter
    (List.replicate es.length guess)

/-! ### Numeric-domain dispatch for the defaults of `rate` (lines 645-654) -/

/-- A Python number as `rate` sees it: either a `decimal.Decimal` or a float.
Both carry their exact value as a rational; the claims about the defaults
concern the numeric domain (the constructor), not float rounding. -/
inductive PyNum where
  | dec (q : ℚ)
  | flt (q : ℚ)
deriving DecidableEq

/-- `isinstance(pmt, Decimal)` (line 646). -/
def isDecimal : PyNum → Bool
  | .dec _ => true
  | .flt _ => false

/-- `default_type = Decimal if isinstance(pmt, Decimal) else float`
(line 646): constructing a literal in the numeric domain selected by the
`pmt` argument. -/
def default_type (pmtArg : PyNum) (q : ℚ) : PyNum :=
  if isDecimal pmtArg then .dec q else .flt q

/-- Lines 650-654: `guess` defaults to `default_type('0.1')` and `tol` to
`default_type('1e-6')` when omitted (`none` models Python `None`). -/
def rateDefaults (pmtArg : PyNum) (guess tol : Option PyNum) : PyNum × PyNum :=
  (guess.getD (default_type pmtArg (1 / 10)),
   tol.getD (default_type pmtArg (1 / 1000000)))

/-! ### IRR solver: `irr` (lines 740-757) -/

/-- `np.polynomial.Polynomial(values)` evaluated at `x` (line 747): the
polynomial whose coefficient list is the cash-flow vector in order,
`P(x) = values[0] + values[1]*x + values[2]*x^2 + ...`. -/
def polyEval : List ℚ → ℚ → ℚ
  | [], _ => 0
  | c :: cs, x => c + x * polyEval cs x

/-- Helper for `polyDeriv`: multiplies the coefficient at offset `i` of the
shifted list by `i + 1`. -/
def polyDerivAux : ℕ → List ℚ → List ℚ
  | _, [] => []
  | i, c :: cs => ((i : ℚ) + 1) * c :: polyDerivAux (i + 1) cs

/-- The coefficient list of the derivative polynomial (`npv_.deriv()`,
line 748): `[1*c1, 2*c2, 3*c3, ...]`. -/
def polyDeriv (cs : List ℚ) : List ℚ :=
  polyDerivAux 0 (cs.drop 1)

/-- One Newton update of `irr` (line 752): `x_new = x - npv_(x)/d_npv(x)`. -/
def irrStep (values : List ℚ) (x : ℚ) : ℚ :=
  x - polyEval values x / polyEval (polyDeriv values) x

/-- The convergence test of `irr` (line 753): `abs(x_new - x) < 1e-12`. -/
def irrClose (x xNew : ℚ) : Bool :=
  decide (|xNew - x| < 1 / 10 ^ 12)

/-- The `k`-th iterate of the `irr` Newton loop, starting from
`x = 1/(1 + guess)` (line 749). -/
def irrIter (values : List ℚ) (guess : ℚ) : ℕ → ℚ
  | 0 => 1 / (1 + guess)
  | k + 1 => irrStep values (irrIter values guess k)

/-- `irr` on a rank-1 cash-flow vector (lines 744-757): at most 100 Newton
iterations; on the first convergent step return `1/x_new - 1` (line 754),
else the NaN sentinel (line 757, modelled by `none`). -/
def irr (values : List ℚ) (guess : ℚ) : Option ℚ :=
  newtonLoop (irrStep values) irrClose (fun xNew => 1 / xNew - 1) 100
    (1 / (1 + guess))

/-! ### `npv` (lines 828-829) and shape handling -/

/-- Helper for `npv`: the running sum of `values[t] / (1+rate)^t` starting at
period index `t`. -/
def npvAux (rate : ℚ) : ℕ → List ℚ → ℚ
  | _, [] => 0
  | t, v :: vs => v / (1 + rate) ^ t + npvAux rate (t + 1) vs

/-- `npv` on a rank-1 array (line 829):
`(values / (1+rate)**arange(len(values))).sum()`. -/
def npv (rate : ℚ) (values : List ℚ) : ℚ :=
  npvAux rate 0 values

/-- An input array of rank 0, 1 or 2, as `np.asarray`/`np.atleast_1d` see it.
Rank 2 is the representative non-rank-1 shape; its rows must be of equal
length to form an ndarray. -/
inductive NDArray where
  | scalar0 (x : ℚ)
  | one (vs : List ℚ)
  | two (rows : List (List ℚ))

/-- The value `npv` produces: a scalar for a rank-1 input, a vector when a
rank-2 input happens to broadcast. -/
inductive NpvOut where
  | scalar (x : ℚ)
  | vec (xs : List ℚ)
deriving DecidableEq

/-- `npv` at any input rank (lines 828-829).  The source performs no shape
validation: `len(values)` on a rank-0 array raises `TypeError`; on a rank-2
array of shape `(r, c)` the division `values / (1+rate)**arange(r)` follows
the broadcasting rule for `(r, c) ÷ (r,)` — it succeeds when `c = r`,
`c = 1` or `r = 1`, and only otherwise raises a broadcast `ValueError`; the
subsequent `sum(axis=0)` then silently returns an array. -/
def npvNd (rate : ℚ) : NDArray → Except String NpvOut
  | .scalar0 _ => .error ("len() of unsized object")
  | .one vs => .ok (.scalar (npv rate vs))
  | .two rows =>
    if rows.all (fun row => row.length == (rows.head?.getD []).length) then
      if (rows.head?.getD []).length = rows.length then
        .ok (.vec ((List.range (rows.head?.getD []).length).map (fun j =>
          (rows.map (fun row => row.getD j 0 / (1 + rate) ^ j)).sum)))
      else if (rows.head?.getD []).length = 1 then
        .ok (.vec ((List.range rows.length).map (fun j =>
          (rows.map (fun row => row.getD 0 0 / (1 + rate) ^ j)).sum)))
      else if rows.length = 1 then
        .ok (.vec ((rows.getD 0 []).map (fun v => v / (1 + rate) ^ (0 : ℕ))))
      else .error ("operands could not be broadcast together")
    else .error ("setting an array element with a sequence")

/-- The input shape contract of `irr` (lines 740-742): `np.atleast_1d`
promotes a scalar to a one-element vector, a rank-1 vector is solved, and
any higher rank raises `ValueError` immediately. -/
def irrNd (nd : NDArray) (guess : ℚ) : Except String (Option ℚ) :=
  match nd with
  | .scalar0 x => .ok (irr [x] guess)
  | .one vs => .ok (irr vs guess)
  | .two _ => .error ("Cashflows must be a rank-1 array")

/-! ### `nper` (lines 299-318) -/

/-- The value of one element of the `nper` result.  The zero-rate branch runs
under `np.errstate(divide='ignore')`, so IEEE division by zero is part of
its semantics and the infinities must be represented explicitly. -/
inductive NperVal where
  | num (x : ℝ)
  | posInf
  | negInf
  | nan

/-- One element of `nper` (lines 299-318).  Zero-rate branch (line 309):
`-(fv + pv)/pmt` with IEEE division (a nonzero numerator over zero yields a
signed infinity, `0/0` yields NaN — divide-by-zero is deliberately ignored).
Nonzero branch (lines 311-316): `z = pmt*(1 + rate*when)/rate` and
`log((-fv + z)/(pv + z)) / log(1 + rate)`. -/
noncomputable def nper (rate pmtArg pvArg fvArg whenv : ℚ) : NperVal :=
  if rate = 0 then
    if pmtArg = 0 then
      if 0 < -(fvArg + pvArg) then .posInf
      else if -(fvArg + pvArg) < 0 then .negInf
      else .nan
    else .num ((-(fvArg + pvArg) / pmtArg : ℚ) : ℝ)
  else
    let z : ℝ := (pmtArg : ℝ) * (1 + (rate : ℝ) * (whenv : ℝ)) / (rate : ℝ);
    .num (Real.log ((-(fvArg : ℝ) + z) / ((pvArg : ℝ) + z)) /
      Real.log (1 + (rate : ℝ)))

/-! ### `mirr` (lines 853-868) -/

/-- `mirr` (lines 853-868).  The guard (lines 862-865) requires at least one
strictly positive and one strictly negative cash flow, else the NaN sentinel
(`none`).  `values*pos` and `values*neg` zero out the complementary entries;
the final value involves the real `(n-1)`-th root, hence `ℝ`. -/
noncomputable def mirr (values : List ℚ) (finance_rate reinvest_rate : ℚ) :
    Option ℝ :=
  if values.any (fun v => decide (0 < v)) && values.any (fun v => decide (v < 0))
  then
    let numer := |npv reinvest_rate (values.map (fun v => if 0 < v then v else 0))|
    let denom := |npv finance_rate (values.map (fun v => if v < 0 then v else 0))|
    some (((numer / denom : ℚ) : ℝ) ^ ((1 : ℝ) / ((values.length : ℝ) - 1)) *
      (1 + (reinvest_rate : ℝ)) - 1)
  else none

/-! ## General lemmas about the Newton loop and the iterate sequences -/

theorem newtonLoop_zero {α β : Type} (step : α → α) (close : α → α → Bool)
    (out : α → β) (x : α) : newtonLoop step close out 0 x = none := rfl

theorem newtonLoop_succ {α β : Type} (step : α → α) (close : α → α → Bool)
    (out : α → β) (fuel : ℕ) (x : α) :
    newtonLoop step close out (fuel + 1) x =
      if close x (step x) then some (out (step x))
      else newtonLoop step close out fuel (step x) := rfl

/-- The loop exhausts its fuel (returns the NaN sentinel) exactly when the
closeness test fails between every pair of successive iterates within the
budget. -/
theorem newtonLoop_eq_none_iff {α β : Type} (step : α → α)
    (close : α → α → Bool) (out : α → β) (fuel : ℕ) : ∀ x : α,
    newtonLoop step close out fuel x = none ↔
      ∀ k < fuel, close (step^[k] x) (step^[k + 1] x) = false := by
  induction fuel with
  | zero => intro x; simp [newtonLoop_zero]
  | succ n ih =>
    intro x
    rw [newtonLoop_succ]
    by_cases h : close x (step x) = true
    · simp only [h, if_true]
      constructor
      · intro hsome; cases hsome
      · intro hall
        have h0 := hall 0 (Nat.succ_pos n)
        simp only [zero_add, Function.iterate_zero_apply,
          Function.iterate_one] at h0
        rw [h] at h0
        cases h0
    · have hf : close x (step x) = false := by
        cases hcv : close x (step x) with
        | true => exact absurd hcv h
        | false => rfl
      simp only [hf, if_false, Bool.false_eq_true]
      rw [ih (step x)]
      constructor
      · intro hall k hk
        cases k with
        | zero => simpa using hf
        | succ k =>
          have := hall k (Nat.lt_of_succ_lt_succ hk)
          simpa [Function.iterate_succ_apply] using this
      · intro hall k hk
        have := hall (k + 1) (Nat.succ_lt_succ hk)
        simpa [Function.iterate_succ_apply] using this

/-- If the closeness test first passes at step `k` within the budget, the loop
stops there and outputs the transformed `(k+1)`-st iterate. -/
theorem newtonLoop_eq_some {α β : Type} (step : α → α)
    (close : α → α → Bool) (out : α → β) (fuel : ℕ) : ∀ (x : α) (k : ℕ),
    k < fuel →
    close (step^[k] x) (step^[k + 1] x) = true →
    (∀ j < k, close (step^[j] x) (step^[j + 1] x) = false) →
    newtonLoop step close out fuel x = some (out (step^[k + 1] x)) := by
  induction fuel with
  | zero => intro x k hk; exact absurd hk (Nat.not_lt_zero k)
  | succ n ih =>
    intro x k hk hclose hprev
    rw [newtonLoop_succ]
    cases k with
    | zero =>
      have h : close x (step x) = true := by simpa using hclose
      simp [h]
    | succ k =>
      have h0 : close x (step x) = false := by
        simpa using hprev 0 (Nat.succ_pos k)
      simp only [h0, if_false, Bool.false_eq_true]
      have hrec := ih (step x) k (Nat.lt_of_succ_lt_succ hk)
        (by simpa [Function.iterate_succ_apply] using hclose)
        (fun j hj => by
          simpa [Function.iterate_succ_apply] using
            hprev (j + 1) (Nat.succ_lt_succ hj))
      simpa [Function.iterate_succ_apply] using hrec

theorem rateIter_eq_iterate (es : List RateArgs) (guess : ℚ) (k : ℕ) :
    rateIter es guess k = (rateStep es)^[k] (List.replicate es.length guess) := by
  induction k with
  | zero => rfl
  | succ k ih => rw [rateIter, ih, Function.iterate_succ_apply']

theorem irrIter_eq_iterate (values : List ℚ) (guess : ℚ) (k : ℕ) :
    irrIter values guess k = (irrStep values)^[k] (1 / (1 + guess)) := by
  induction k with
  | zero => rfl
  | succ k ih => rw [irrIter, ih, Function.iterate_succ_apply']

/-! ## Claim C4 -/

/-- C4: for every broadcast element of `fv(rate, nper, pmt, pv, when)`, the
result equals `-(pv + pmt*nper)` where `rate == 0` and equals
`-pv*(1+rate)^nper - pmt*(1+rate*when)/rate*((1+rate)^nper - 1)` where
`rate != 0`. -/
theorem fv_rate_partition (args : List FvArgs) (i : ℕ) (a : FvArgs)
    (h : args[i]? = some a) :
    (fvArr args)[i]? =
      some (if a.rate = 0 then -(a.pv + a.pmt * (a.nper : ℚ))
        else -a.pv * (1 + a.rate) ^ a.nper
          - a.pmt * (1 + a.rate * a.whenv) / a.rate
            * ((1 + a.rate) ^ a.nper - 1)) := by
  simp [fvArr, List.getElem?_map, h, fv]

/-- Witness for C4 at the concrete one-element batch
`[rate = 0, nper = 5, pmt = 10, pv = 100, when = 0]`. -/
theorem fv_rate_partition_wit :
    (fvArr [⟨0, 5, 10, 100, 0⟩])[0]? =
      some (if (0 : ℚ) = 0 then -((100 : ℚ) + 10 * ((5 : ℤ) : ℚ))
        else -(100 : ℚ) * (1 + 0) ^ (5 : ℤ)
          - 10 * (1 + 0 * 0) / 0 * ((1 + 0) ^ (5 : ℤ) - 1)) :=
  fv_rate_partition [⟨0, 5, 10, 100, 0⟩] 0 ⟨0, 5, 10, 100, 0⟩ rfl

/-! ## Claim C5 -/

/-- C5: `ipmt(rate, per, nper, pv, fv, when)` yields the NaN sentinel for
`per < 1`; exactly 0 for begin-of-period timing and `per == 1`; and the
computed interest (remaining balance times rate) divided by `1 + rate` for
begin-of-period timing and `per > 1`. -/
theorem ipmt_edge_cases (rate : ℚ) (per nper : ℤ) (pvArg fvArg whenv : ℚ) :
    (per < 1 → ipmt rate per nper pvArg fvArg whenv = none) ∧
    (whenv = 1 → per = 1 → ipmt rate per nper pvArg fvArg whenv = some 0) ∧
    (whenv = 1 → 1 < per →
      ipmt rate per nper pvArg fvArg whenv =
        some (_rbl rate per (pmt rate nper pvArg fvArg whenv) pvArg whenv * rate
          / (1 + rate))) := by
  refine ⟨fun h => ?_, fun hw hp => ?_, fun hw hp => ?_⟩
  · simp only [ipmt]
    rw [if_pos h]
  · subst hw hp
    norm_num [ipmt]
  · have h1 : ¬ per < 1 := by omega
    have h2 : ¬ (whenv = 1 ∧ per = 1) := by
      rintro ⟨_, hp1⟩
      omega
    simp only [ipmt, if_neg h1, if_neg h2, if_pos (And.intro hw hp)]

/-- Witness for C5: all three timing branches at concrete inputs. -/
theorem ipmt_edge_cases_wit :
    ipmt 0 0 12 1000 0 0 = none ∧
    ipmt 0 1 12 1000 0 1 = some 0 ∧
    ipmt 0 2 12 1000 0 1 =
      some (_rbl 0 2 (pmt 0 12 1000 0 1) 1000 1 * 0 / (1 + 0)) :=
  ⟨(ipmt_edge_cases 0 0 12 1000 0 0).1 (by decide),
   (ipmt_edge_cases 0 1 12 1000 0 1).2.1 rfl rfl,
   (ipmt_edge_cases 0 2 12 1000 0 1).2.2 rfl (by decide)⟩

/-! ## Claim C6 -/

/-- C6: whenever `ppmt` and `ipmt` both produce a numeric value (all valid
inputs; `none` is the inherited NaN of `ipmt`), their sum equals `pmt`
elementwise, as an exact algebraic identity. -/
theorem ppmt_add_ipmt_eq_pmt (rate : ℚ) (per nper : ℤ)
    (pvArg fvArg whenv pp ip : ℚ)
    (hp : ppmt rate per nper pvArg fvArg whenv = some pp)
    (hi : ipmt rate per nper pvArg fvArg whenv = some ip) :
    pp + ip = pmt rate nper pvArg fvArg whenv := by
  rw [ppmt, hi, Option.map_some'] at hp
  have : pmt rate nper pvArg fvArg whenv - ip = pp := by
    exact Option.some.inj hp
  rw [← this]
  ring

/-- Witness for C6 at `rate = 0, per = 2, nper = 12, pv = 1000`. -/
theorem ppmt_add_ipmt_eq_pmt_wit :
    (-250 / 3 : ℚ) + 0 = pmt 0 12 1000 0 0 :=
  ppmt_add_ipmt_eq_pmt 0 2 12 1000 0 0 (-250 / 3) 0
    (by norm_num [ppmt, ipmt, pmt])
    (by norm_num [ipmt])

/-! ## Claim C8 -/

/-- C8: when `guess` or `tol` is omitted, `rate` constructs the defaults
(guess `0.1`, tolerance `1e-6`) in the numeric domain of the `pmt` argument:
exact-decimal values when `pmt` is a `Decimal`, floating-point values
otherwise; supplied values pass through untouched. -/
theorem rate_defaults_follow_pmt_domain (pmtArg g t : PyNum) :
    rateDefaults pmtArg none none =
      (default_type pmtArg (1 / 10), default_type pmtArg (1 / 1000000)) ∧
    isDecimal (default_type pmtArg (1 / 10)) = isDecimal pmtArg ∧
    isDecimal (default_type pmtArg (1 / 1000000)) = isDecimal pmtArg ∧
    (isDecimal pmtArg = true →
      rateDefaults pmtArg none none = (.dec (1 / 10), .dec (1 / 1000000))) ∧
    (isDecimal pmtArg = false →
      rateDefaults pmtArg none none = (.flt (1 / 10), .flt (1 / 1000000))) ∧
    rateDefaults pmtArg (some g) (some t) = (g, t) := by
  refine ⟨rfl, ?_, ?_, fun h => ?_, fun h => ?_, rfl⟩ <;>
    cases pmtArg <;> simp_all [default_type, isDecimal, rateDefaults]

/-- Witness for C8: a `Decimal` payment and a float payment. -/
theorem rate_defaults_follow_pmt_domain_wit :
    rateDefaults (.dec 5) none none = (.dec (1 / 10), .dec (1 / 1000000)) ∧
    rateDefaults (.flt 5) none none = (.flt (1 / 10), .flt (1 / 1000000)) :=
  ⟨(rate_defaults_follow_pmt_domain (.dec 5) (.dec 0) (.dec 0)).2.2.2.1 rfl,
   (rate_defaults_follow_pmt_domain (.flt 5) (.flt 0) (.flt 0)).2.2.2.2.1 rfl⟩

/-! ## Claim C7 -/

/-- C7: on the zero-rate branch `nper` equals `-(fv+pv)/pmt`; when moreover
`pmt == 0` and `fv + pv != 0`, the IEEE division by zero is permitted and
the result is a signed infinity — a returned value, not an error (the
codomain `NperVal` has no error case; the branch runs under
`np.errstate(divide='ignore')`). -/
theorem nper_zero_rate_division (rate pmtArg pvArg fvArg whenv : ℚ)
    (hr : rate = 0) :
    (pmtArg ≠ 0 →
      nper rate pmtArg pvArg fvArg whenv =
        .num ((-(fvArg + pvArg) / pmtArg : ℚ) : ℝ)) ∧
    (pmtArg = 0 → fvArg + pvArg ≠ 0 →
      nper rate pmtArg pvArg fvArg whenv = .posInf ∨
      nper rate pmtArg pvArg fvArg whenv = .negInf) := by
  subst hr
  constructor
  · intro hp
    simp [nper, hp]
  · intro hp hsum
    rcases lt_or_gt_of_ne hsum with h | h
    · left
      have hpos : fvArg < -pvArg := by linarith
      simp [nper, hp, hpos]
    · right
      have hne : ¬ fvArg < -pvArg := by linarith
      have hneg : -pvArg < fvArg := by linarith
      simp [nper, hp, hne, hneg]

/-- Witness for C7: a finite quotient, and an infinite result from a zero
payment. -/
theorem nper_zero_rate_division_wit :
    nper 0 2 100 0 0 = .num ((-((0 : ℚ) + 100) / 2 : ℚ) : ℝ) ∧
    (nper 0 0 100 0 0 = .posInf ∨ nper 0 0 100 0 0 = .negInf) :=
  ⟨(nper_zero_rate_division 0 2 100 0 0 rfl).1 (by norm_num),
   (nper_zero_rate_division 0 0 100 0 0 rfl).2 rfl (by norm_num)⟩

/-! ## Claim C10 -/

/-- A sequence containing an unrecognized element makes the per-element
comprehension fail, and the reported key is itself unrecognized. -/
theorem seqLookup_error_of_mem :
    ∀ xs : List WhenScalar, ∀ x ∈ xs, whenToNum x = none →
      ∃ y, seqLookup xs = .error y ∧ whenToNum y = none := by
  intro xs
  induction xs with
  | nil => intro x hx; cases hx
  | cons hd tl ih =>
    intro x hx hxn
    cases hw : whenToNum hd with
    | none => exact ⟨hd, by simp [seqLookup, hw], hw⟩
    | some n =>
      rcases List.mem_cons.1 hx with rfl | hx2
      · rw [hw] at hxn
        cases hxn
      · obtain ⟨y, hy, hyn⟩ := ih x hx2 hxn
        refine ⟨y, ?_, hyn⟩
        simp [seqLookup, hw, hy, Except.map]

/-- Counterexample to C10 as stated: the string `"eb"` is not in the
recognized set (`_when_to_num` has no key `"eb"`), yet `_convert_when` does
not fail — the `except` clause on line 39 iterates the string character by
character, both `'e'` and `'b'` are dictionary keys, and the call returns
`[0, 1]` without any invalid-timing error. -/
theorem convert_when_unrecognized_no_error_cex :
    whenToNum (.str ("eb")) = none ∧
    convertWhen (.scalar (.str ("eb"))) = .ok (.codes [0, 1]) :=
  ⟨rfl, rfl⟩

/-- C10 amended: `_convert_when` maps each accepted spelling to its timing
code (0 = END, 1 = BEGIN), passes an ndarray through unchanged, and signals
the invalid-timing error per element: an unrecognized integer scalar fails,
a sequence fails exactly on an unrecognized element, and an unrecognized
string scalar is retried as the sequence of its characters — failing only
when some character is itself unrecognized. -/
theorem convert_when_policy_amended :
    (convertWhen (.scalar (.str ("end"))) = .ok (.code 0) ∧
     convertWhen (.scalar (.str ("e"))) = .ok (.code 0) ∧
     convertWhen (.scalar (.str ("finish"))) = .ok (.code 0) ∧
     convertWhen (.scalar (.num 0)) = .ok (.code 0) ∧
     convertWhen (.scalar (.str ("begin"))) = .ok (.code 1) ∧
     convertWhen (.scalar (.str ("b"))) = .ok (.code 1) ∧
     convertWhen (.scalar (.str ("beginning"))) = .ok (.code 1) ∧
     convertWhen (.scalar (.str ("start"))) = .ok (.code 1) ∧
     convertWhen (.scalar (.num 1)) = .ok (.code 1)) ∧
    (∀ vs : List ℚ, convertWhen (.arr vs) = .ok (.passthrough vs)) ∧
    (∀ m : ℤ, whenToNum (.num m) = none →
      convertWhen (.scalar (.num m)) = .error (.num m)) ∧
    (∀ xs : List WhenScalar, ∀ x ∈ xs, whenToNum x = none →
      ∃ y, convertWhen (.seq xs) = .error y ∧ whenToNum y = none) ∧
    (∀ (xs : List WhenScalar) (ns : List ℕ), seqLookup xs = .ok ns →
      convertWhen (.seq xs) = .ok (.codes ns)) ∧
    (∀ s : String, whenToNum (.str s) = none →
      ∀ c ∈ s.toList, whenToNum (.str c.toString) = none →
        ∃ y, convertWhen (.scalar (.str s)) = .error y ∧ whenToNum y = none) ∧
    (∀ (s : String) (ns : List ℕ), whenToNum (.str s) = none →
      seqLookup (s.toList.map (fun c => .str c.toString)) = .ok ns →
      convertWhen (.scalar (.str s)) = .ok (.codes ns)) := by
  refine ⟨⟨rfl, rfl, rfl, rfl, rfl, rfl, rfl, rfl, rfl⟩, fun vs => rfl,
    fun m hm => ?_, fun xs x hx hxn => ?_, fun xs ns hok => ?_,
    fun s hs c hc hcn => ?_, fun s ns hs hok => ?_⟩
  · simp [convertWhen, hm]
  · obtain ⟨y, hy, hyn⟩ := seqLookup_error_of_mem xs x hx hxn
    exact ⟨y, by simp [convertWhen, hy, Except.map], hyn⟩
  · simp [convertWhen, hok, Except.map]
  · obtain ⟨y, hy, hyn⟩ := seqLookup_error_of_mem
      (s.toList.map (fun c => .str c.toString)) (.str c.toString)
      (List.mem_map_of_mem (fun c => WhenScalar.str c.toString) hc) hcn
    simp only [String.toList] at hy
    exact ⟨y, by simp [convertWhen, hs, hy, Except.map], hyn⟩
  · simp only [String.toList] at hok
    simp [convertWhen, hs, hok, Except.map]

/-- Witness for the amended C10: an unrecognized integer scalar, a failing
and a successful sequence, a string whose first character is unrecognized
(error), and a string all of whose characters are recognized (no error). -/
theorem convert_when_policy_amended_wit :
    convertWhen (.scalar (.num 5)) = .error (.num 5) ∧
    (∃ y, convertWhen (.seq [.str ("nope")]) = .error y ∧ whenToNum y = none) ∧
    convertWhen (.seq [.num 0, .str ("begin")]) = .ok (.codes [0, 1]) ∧
    (∃ y, convertWhen (.scalar (.str ("End"))) = .error y ∧
      whenToNum y = none) ∧
    convertWhen (.scalar (.str ("be"))) = .ok (.codes [1, 0]) :=
  ⟨convert_when_policy_amended.2.2.1 5 rfl,
   convert_when_policy_amended.2.2.2.1 [.str ("nope")] (.str ("nope"))
     (List.mem_singleton.2 rfl) rfl,
   convert_when_policy_amended.2.2.2.2.1 [.num 0, .str ("begin")] [0, 1] rfl,
   convert_when_policy_amended.2.2.2.2.2.1 ("End") rfl 'E' (by decide) rfl,
   convert_when_policy_amended.2.2.2.2.2.2 ("be") [1, 0] rfl rfl⟩

/-! ## Claim C1 -/

/-- C1: a batched (or scalar) `rate` call returns the NaN sentinel for the
whole broadcast result — regardless of which individual elements converged —
exactly when no iteration within `maxiter` brings every elementwise
difference of successive candidates below the tolerance simultaneously;
otherwise it returns the candidate array of the first convergent step. -/
theorem rate_all_or_nothing (es : List RateArgs) (guess tol : ℚ)
    (maxiter : ℕ) :
    (rate es guess tol maxiter = none ↔
      ∀ k < maxiter,
        rateClose tol (rateIter es guess k) (rateIter es guess (k + 1)) = false) ∧
    (∀ k < maxiter,
      rateClose tol (rateIter es guess k) (rateIter es guess (k + 1)) = true →
      (∀ j < k,
        rateClose tol (rateIter es guess j) (rateIter es guess (j + 1)) = false) →
      rate es guess tol maxiter = some (rateIter es guess (k + 1))) := by
  constructor
  · simp only [rate, rateIter_eq_iterate]
    exact newtonLoop_eq_none_iff (rateStep es) (rateClose tol) id maxiter
      (List.replicate es.length guess)
  · intro k hk hc hprev
    simp only [rateIter_eq_iterate] at hc hprev ⊢
    simp only [rate]
    exact newtonLoop_eq_some (rateStep es) (rateClose tol) id maxiter
      (List.replicate es.length guess) k hk hc hprev

/-- Witness for C1 on the one-element batch `nper = 1, pmt = 0, pv = 1,
fv = 1, when = 0` (whose Newton update jumps to `-2` and stays): with
`maxiter = 1` the first step is not yet convergent, so the result is the NaN
sentinel; with `maxiter = 100` the second step converges to `[-2]`. -/
theorem rate_all_or_nothing_wit :
    rate [⟨1, 0, 1, 1, 0⟩] (1 / 10) (1 / 1000000) 1 = none ∧
    rate [⟨1, 0, 1, 1, 0⟩] (1 / 10) (1 / 1000000) 100 =
      some (rateIter [⟨1, 0, 1, 1, 0⟩] (1 / 10) 2) ∧
    rateIter [⟨1, 0, 1, 1, 0⟩] (1 / 10) 2 = [-2] := by
  have r0 : rateIter [⟨1, 0, 1, 1, 0⟩] (1 / 10) 0 = [1 / 10] := by
    simp [rateIter]
  have r1 : rateIter [⟨1, 0, 1, 1, 0⟩] (1 / 10) 1 = [-2] := by
    rw [show rateIter [⟨1, 0, 1, 1, 0⟩] (1 / 10) 1 =
        rateStep [⟨1, 0, 1, 1, 0⟩] (rateIter [⟨1, 0, 1, 1, 0⟩] (1 / 10) 0)
      from rfl, r0]
    simp only [rateStep, _g_div_gp, List.zipWith]
    norm_num
  have r2 : rateIter [⟨1, 0, 1, 1, 0⟩] (1 / 10) 2 = [-2] := by
    rw [show rateIter [⟨1, 0, 1, 1, 0⟩] (1 / 10) 2 =
        rateStep [⟨1, 0, 1, 1, 0⟩] (rateIter [⟨1, 0, 1, 1, 0⟩] (1 / 10) 1)
      from rfl, r1]
    simp only [rateStep, _g_div_gp, List.zipWith]
    norm_num
  have c0 : rateClose (1 / 1000000) [1 / 10] [-2] = false := by
    simp only [rateClose, List.zipWith, List.all_cons, List.all_nil, id,
      Bool.and_true, decide_eq_false_iff_not, abs_sub_lt_iff, not_and_or,
      not_lt]
    right
    norm_num
  have c1 : rateClose (1 / 1000000) [-2] [-2] = true := by
    simp only [rateClose, List.zipWith, List.all_cons, List.all_nil, id,
      Bool.and_true, decide_eq_true_eq, abs_sub_lt_iff]
    norm_num
  refine ⟨?_, ?_, r2⟩
  · refine (rate_all_or_nothing [⟨1, 0, 1, 1, 0⟩] (1 / 10) (1 / 1000000) 1).1.mpr ?_
    intro k hk
    have hk0 : k = 0 := by omega
    subst hk0
    rw [show (0 : ℕ) + 1 = 1 from rfl, r0, r1]
    exact c0
  · refine (rate_all_or_nothing [⟨1, 0, 1, 1, 0⟩] (1 / 10) (1 / 1000000) 100).2
      1 (by norm_num) ?_ ?_
    · rw [show (1 : ℕ) + 1 = 2 from rfl, r1, r2]
      exact c1
    · intro j hj
      have hj0 : j = 0 := by omega
      subst hj0
      rw [show (0 : ℕ) + 1 = 1 from rfl, r0, r1]
      exact c0

/-! ## Claim C2 -/

/-- The built polynomial has the cash flows as its coefficients in order:
`P(x) = Σ values[t] * x^t`. -/
theorem polyEval_eq_sum (cs : List ℚ) (x : ℚ) :
    polyEval cs x = ∑ t in Finset.range cs.length, cs.getD t 0 * x ^ t := by
  induction cs generalizing x with
  | nil => simp [polyEval]
  | cons c cs ih =>
    rw [polyEval, ih, List.length_cons, Finset.sum_range_succ',
      Finset.mul_sum]
    simp only [List.getD_cons_succ, List.getD_cons_zero, pow_zero, mul_one]
    rw [add_comm]
    congr 1
    refine Finset.sum_congr rfl (fun i _ => by ring)

/-- C2: `irr` builds the polynomial with the cash flows as coefficients in
order, starts at `x = 1/(1+guess)`, iterates `x ← x - P(x)/P'(x)` for at
most 100 steps, returns `1/x_new - 1` at the first step with
`|x_new - x| < 1e-12`, and returns the NaN sentinel when no step within the
cap satisfies the test. -/
theorem irr_newton_characterization (values : List ℚ) (guess : ℚ) :
    irrIter values guess 0 = 1 / (1 + guess) ∧
    (∀ x : ℚ, polyEval values x =
      ∑ t in Finset.range values.length, values.getD t 0 * x ^ t) ∧
    (irr values guess = none ↔
      ∀ k < 100,
        irrClose (irrIter values guess k) (irrIter values guess (k + 1)) = false) ∧
    (∀ k < 100,
      irrClose (irrIter values guess k) (irrIter values guess (k + 1)) = true →
      (∀ j < k,
        irrClose (irrIter values guess j) (irrIter values guess (j + 1)) = false) →
      irr values guess = some (1 / irrIter values guess (k + 1) - 1)) := by
  refine ⟨rfl, fun x => polyEval_eq_sum values x, ?_, ?_⟩
  · simp only [irr, irrIter_eq_iterate]
    exact newtonLoop_eq_none_iff (irrStep values) irrClose
      (fun xNew => 1 / xNew - 1) 100 (1 / (1 + guess))
  · intro k hk hc hprev
    simp only [irrIter_eq_iterate] at hc hprev ⊢
    simp only [irr]
    exact newtonLoop_eq_some (irrStep values) irrClose
      (fun xNew => 1 / xNew - 1) 100 (1 / (1 + guess)) k hk hc hprev

/-- Witness for C2 on the cash flows `[2, 2]` with the default guess `0.1`:
the iterates are `10/11, -1, -1`, so the loop converges at the second step
and returns `1/(-1) - 1 = -2`. -/
theorem irr_newton_characterization_wit :
    irr [2, 2] (1 / 10) = some (1 / irrIter [2, 2] (1 / 10) 2 - 1) ∧
    irrIter [2, 2] (1 / 10) 2 = -1 := by
  have i0 : irrIter [2, 2] (1 / 10) 0 = 10 / 11 := by
    rw [show irrIter [2, 2] (1 / 10) 0 = 1 / (1 + 1 / 10) from rfl]
    norm_num
  have i1 : irrIter [2, 2] (1 / 10) 1 = -1 := by
    rw [show irrIter [2, 2] (1 / 10) 1 =
        irrStep [2, 2] (irrIter [2, 2] (1 / 10) 0) from rfl, i0]
    simp only [irrStep, polyEval, polyDeriv, polyDerivAux, List.drop_succ_cons,
      List.drop_zero]
    norm_num
  have i2 : irrIter [2, 2] (1 / 10) 2 = -1 := by
    rw [show irrIter [2, 2] (1 / 10) 2 =
        irrStep [2, 2] (irrIter [2, 2] (1 / 10) 1) from rfl, i1]
    simp only [irrStep, polyEval, polyDeriv, polyDerivAux, List.drop_succ_cons,
      List.drop_zero]
    norm_num
  have c0 : irrClose (10 / 11) (-1) = false := by
    simp only [irrClose, decide_eq_false_iff_not, abs_sub_lt_iff, not_and_or,
      not_lt]
    right
    norm_num
  have c1 : irrClose (-1) (-1) = true := by
    simp only [irrClose, decide_eq_true_eq, abs_sub_lt_iff]
    norm_num
  refine ⟨?_, i2⟩
  refine (irr_newton_characterization [2, 2] (1 / 10)).2.2.2 1 (by norm_num)
    ?_ ?_
  · rw [show (1 : ℕ) + 1 = 2 from rfl, i1, i2]
    exact c1
  · intro j hj
    have hj0 : j = 0 := by omega
    subst hj0
    rw [show (0 : ℕ) + 1 = 1 from rfl, i0, i1]
    exact c0

/-! ## Claim C3 -/

/-- Counterexample to C3 as stated: the all-positive cash-flow vector
`[1, 1]` (no strictly negative entry) makes `irr` return the numeric value
`-2`, not the NaN sentinel — `irr` has no sign-change guard; Newton-Raphson
simply converges to the root `x = -1` of `1 + x`. -/
theorem irr_one_sign_numeric_cex : irr [1, 1] (1 / 10) = some (-2) := by
  have s1 : irrStep [1, 1] (1 / (1 + 1 / 10)) = -1 := by
    simp only [irrStep, polyEval, polyDeriv, polyDerivAux, List.drop_succ_cons,
      List.drop_zero]
    norm_num
  have s2 : irrStep [1, 1] (-1 : ℚ) = -1 := by
    simp only [irrStep, polyEval, polyDeriv, polyDerivAux, List.drop_succ_cons,
      List.drop_zero]
    norm_num
  have c0 : irrClose (1 / (1 + 1 / 10)) (-1) = false := by
    simp only [irrClose, decide_eq_false_iff_not, abs_sub_lt_iff, not_and_or,
      not_lt]
    right
    norm_num
  have c1 : irrClose (-1 : ℚ) (-1) = true := by
    simp only [irrClose, decide_eq_true_eq, abs_sub_lt_iff]
    norm_num
  show newtonLoop (irrStep [1, 1]) irrClose (fun xNew => 1 / xNew - 1) 100
    (1 / (1 + 1 / 10)) = some (-2)
  rw [show (100 : ℕ) = 99 + 1 from rfl, newtonLoop_succ, s1, c0]
  simp only [Bool.false_eq_true, if_false]
  rw [show (99 : ℕ) = 98 + 1 from rfl, newtonLoop_succ, s2, c1]
  norm_num

/-- C3 amended: `mirr` returns the NaN sentinel for every cash-flow vector
with no strictly positive or no strictly negative entry; `irr` applies no
such sign guard and can return a numeric value on one-signed input (see the
counterexample). -/
theorem mirr_sign_guard (values : List ℚ) (finance_rate reinvest_rate : ℚ)
    (h : (∀ v ∈ values, v ≤ 0) ∨ (∀ v ∈ values, 0 ≤ v)) :
    mirr values finance_rate reinvest_rate = none := by
  have hfalse : (values.any (fun v => decide (0 < v)) &&
      values.any (fun v => decide (v < 0))) = false := by
    rcases h with h | h
    · have hpos : values.any (fun v => decide (0 < v)) = false := by
        rw [Bool.eq_false_iff]
        intro ha
        obtain ⟨v, hv, hd⟩ := List.any_eq_true.1 ha
        exact absurd (of_decide_eq_true hd) (not_lt.2 (h v hv))
      simp [hpos]
    · have hneg : values.any (fun v => decide (v < 0)) = false := by
        rw [Bool.eq_false_iff]
        intro ha
        obtain ⟨v, hv, hd⟩ := List.any_eq_true.1 ha
        exact absurd (of_decide_eq_true hd) (not_lt.2 (h v hv))
      simp [hneg]
  simp only [mirr]
  rw [hfalse]
  simp

/-- Witness for the amended C3: the all-positive vector `[1, 2]`. -/
theorem mirr_sign_guard_wit : mirr [1, 2] 0 0 = none :=
  mirr_sign_guard [1, 2] 0 0 (Or.inr (by norm_num [List.forall_mem_cons]))

/-! ## Claim C9 -/

/-- Counterexample to C9 as stated: the rank-2 (2×2) input `[[1,2],[3,4]]`
does not make `npv` signal a shape error — the division broadcasts
`(2,2) ÷ (2,)` and `npv` silently computes the array `[4, 6]`. -/
theorem npv_rank2_silently_computes_cex :
    npvNd 0 (.two [[1, 2], [3, 4]]) = .ok (.vec [4, 6]) := by
  have hr : List.range 2 = [0, 1] := rfl
  norm_num [npvNd, hr, List.getD]

/-- C9 amended: `irr` signals the fatal rank error immediately for every
rank-2 `values`; `npv` performs no shape validation — for any rectangular
square rank-2 input it silently computes an array result instead of
signalling an error (only non-broadcastable shapes fail). -/
theorem irr_npv_shape_validation (rows : List (List ℚ)) (guess rate : ℚ)
    (hsq : ∀ row ∈ rows, row.length = rows.length) :
    irrNd (.two rows) guess = .error ("Cashflows must be a rank-1 array") ∧
    ∃ out, npvNd rate (.two rows) = .ok (.vec out) := by
  refine ⟨rfl, ?_⟩
  have hc : (rows.head?.getD []).length = rows.length := by
    cases rows with
    | nil => rfl
    | cons hd tl => exact hsq hd (List.mem_cons_self hd tl)
  have hall : rows.all
      (fun row => row.length == (rows.head?.getD []).length) = true := by
    rw [List.all_eq_true]
    intro row hrow
    simp only [beq_iff_eq]
    rw [hc]
    exact hsq row hrow
  refine ⟨(List.range (rows.head?.getD []).length).map (fun j =>
    (rows.map (fun row => row.getD j 0 / (1 + rate) ^ j)).sum), ?_⟩
  simp only [npvNd]
  rw [hall]
  simp only [if_true]
  rw [if_pos hc]

/-- Witness for the amended C9 at the square rank-2 input `[[1,2],[3,4]]`. -/
theorem irr_npv_shape_validation_wit :
    irrNd (.two [[1, 2], [3, 4]]) 0 =
      .error ("Cashflows must be a rank-1 array") ∧
    ∃ out, npvNd 0 (.two [[1, 2], [3, 4]]) = .ok (.vec out) :=
  irr_npv_shape_validation [[1, 2], [3, 4]] 0 0
    (by norm_num [List.forall_mem_cons])

end NumpyFinancial
